import Mathlib

set_option linter.unusedVariables false

/-! Shallow embedding of the eslint autoconfig engine (the Registry file of this
repository) and of the selection pipeline of the init wizard (configureRules in
the second half of lib/util/source-code-obtain.js).

JavaScript values that can appear inside a rule configuration are modelled by
JVal.  JavaScript objects are association lists kept in insertion order, which
matches the iteration order of Object.keys for string keys.  The mutable
registryItem objects of the source are modelled by an explicit store (a list of
items addressed by index), so that the sharing of item objects between registry
snapshots is visible, exactly as in the source where a snapshot copies the
rules mapping but reuses the registryItem objects themselves. -/

/-- A JavaScript value as used in rule configurations and schemas. -/
inductive JVal where
  | num  (n : Int)
  | str  (s : String)
  | bool (b : Bool)
  | obj  (fields : List (String × JVal))
  | arr  (elems : List JVal)

/-- Property lookup on a JavaScript object modelled as an association list. -/
def lookupJs {β : Type} (k : String) : List (String × β) → Option β
  | [] => none
  | kv :: rest => if kv.1 == k then some kv.2 else lookupJs k rest

/-- Assignment of one property on a JavaScript object: an existing key keeps its
position and gets the new value, a new key is appended at the end. -/
def jsSetField {β : Type} (m : List (String × β)) (k : String) (v : β) :
    List (String × β) :=
  if m.any (fun kv => kv.1 == k) then
    m.map (fun kv => if kv.1 == k then (kv.1, v) else kv)
  else m ++ [(k, v)]

/-- Copying all enumerable properties of the second object onto the first, as
done by Object.assign and by the property-copy loops of the source. -/
def jsAssignFields {β : Type} (m fields : List (String × β)) : List (String × β) :=
  fields.foldl (fun acc kv => jsSetField acc kv.1 kv.2) m

/-- Embeds explodeArray of the source: wrap every element of an array into a
one-element array. -/
def explodeArray (xs : List JVal) : List JVal :=
  xs.map (fun x => JVal.arr [x])

/-- Array.prototype.concat spreads array arguments one level; this gives the
element list a value contributes to such a concatenation. -/
def toElems : JVal → List JVal
  | JVal.arr xs => xs
  | v => [v]

/-- Embeds combineArrays of the source: concatenate each element of the second
array onto each element of the first, with the empty-argument special cases. -/
def combineArrays (arr1 arr2 : List JVal) : List JVal :=
  match arr1, arr2 with
  | [], _ => explodeArray arr2
  | _, [] => explodeArray arr1
  | a1, a2 => a1.flatMap (fun x1 => a2.map (fun x2 => JVal.arr (toElems x1 ++ toElems x2)))

/-- Fields of a JavaScript object value; non-objects have no enumerable
fields of interest here. -/
def objFields : JVal → List (String × JVal)
  | JVal.obj fs => fs
  | _ => []

/-- The first key of a single-property object, as Object.keys(obj)[0] in
groupByProperty of the source; the inputs there always have exactly one key. -/
def firstKey : JVal → String
  | JVal.obj (kv :: _) => kv.1
  | _ => ""

/-- Embeds groupByProperty of the source: group single-property objects by
their property name, preserving the order in which names first appear. -/
def groupByProperty (objects : List JVal) : List (List JVal) :=
  let grouped := objects.foldl (fun acc o =>
    let k := firstKey o
    if acc.any (fun g => g.1 == k) then
      acc.map (fun g => if g.1 == k then (g.1, g.2 ++ [o]) else g)
    else acc ++ [(k, [o])]) ([] : List (String × List JVal))
  grouped.map (fun g => g.2)

/-- Embeds combinePropertyObjects of the source: cross-combine two groups of
single-property objects into merged objects, with empty-argument special
cases. -/
def combinePropertyObjects (objArr1 objArr2 : List JVal) : List JVal :=
  match objArr1, objArr2 with
  | [], ys => ys
  | xs, [] => xs
  | xs, ys =>
    xs.flatMap (fun o1 => ys.map (fun o2 =>
      JVal.obj (jsAssignFields (jsAssignFields [] (objFields o1)) (objFields o2))))

/-- One property of an object-typed schema option: may carry an enum list and
a type string, as read by addObject of the source. -/
structure PropSchema where
  enum : Option (List JVal)
  type : Option String

/-- One option of a rule schema, as inspected by generateConfigsFromSchema:
an enum list, a type (only the string "object" is acted on), the properties of
an object option, and a oneOf marker (present but never acted on). -/
structure SchemaOpt where
  enum : Option (List JVal)
  type : Option String
  properties : List (String × PropSchema)
  oneOf : Bool

/-- Embeds the objectConfigSet accumulation inside addObject of the source:
single-property objects for every enum value and for both boolean values,
then grouped by property and cross-combined into full objects. -/
def objectConfigsFor (opt : SchemaOpt) : List JVal :=
  let singles := opt.properties.foldl (fun acc pkv =>
    let acc1 := match pkv.2.enum with
      | some vs => acc ++ vs.map (fun v => JVal.obj [(pkv.1, v)])
      | none => acc
    match pkv.2.type with
    | some t =>
        if t == "boolean" then
          acc1 ++ [JVal.obj [(pkv.1, JVal.bool true)], JVal.obj [(pkv.1, JVal.bool false)]]
        else acc1
    | none => acc1) []
  (groupByProperty singles).foldl (fun acc objArr => combinePropertyObjects acc objArr) []

/-- Embeds RuleConfigSet.addEnums of the source. -/
def addEnums (ruleConfigs : List JVal) (enums : List JVal) : List JVal :=
  ruleConfigs ++ combineArrays ruleConfigs enums

/-- Embeds RuleConfigSet.addObject of the source; the truthiness test on the
combined object array in the source is always true for an array, so the
concatenation is unconditional. -/
def addObject (ruleConfigs : List JVal) (opt : SchemaOpt) : List JVal :=
  ruleConfigs ++ combineArrays ruleConfigs (objectConfigsFor opt)

/-- The config.unshift step of addErrorSeverity: prepend the severity to one
config; all configs are arrays at this point in the source. -/
def prependSeverity (sev : Int) (c : JVal) : JVal :=
  match c with
  | JVal.arr xs => JVal.arr (JVal.num sev :: xs)
  | other => other

/-- Embeds RuleConfigSet.addErrorSeverity of the source: prepend the severity
to every config and add a single bare-severity config at the front.  The
source computes severity || 2, so an absent or zero argument becomes 2. -/
def addErrorSeverity (ruleConfigs : List JVal) (severity : Option Int) : List JVal :=
  let sev : Int := match severity with
    | some s => if s = 0 then 2 else s
    | none => 2
  JVal.num sev :: ruleConfigs.map (prependSeverity sev)

/-- One iteration of the schema.forEach loop of generateConfigsFromSchema: a
present enum field (truthy in the source) adds enums, a type equal to the
string "object" adds object configs, and oneOf is ignored (the source marks
it as not yet implemented). -/
def applySchemaOpt (rcs : List JVal) (opt : SchemaOpt) : List JVal :=
  let rcs1 := match opt.enum with
    | some es => addEnums rcs es
    | none => rcs
  if opt.type == some "object" then addObject rcs1 opt else rcs1

/-- The configs accumulated by the forEach loop of generateConfigsFromSchema
before the severity is added; a schema that is not an array is modelled as
none and contributes nothing. -/
def schemaBaseConfigs : Option (List SchemaOpt) → List JVal
  | some opts => opts.foldl applySchemaOpt []
  | none => []

/-- Embeds generateConfigsFromSchema of the source: run the forEach loop over
the schema options, then add the error severity. -/
def generateConfigsFromSchema (schema : Option (List SchemaOpt)) : List JVal :=
  addErrorSeverity (schemaBaseConfigs schema) none

/-- True when some option of the schema is acted on by the expander: it has an
enum field or is object-typed. -/
def recognizedOpt (opt : SchemaOpt) : Bool :=
  opt.enum.isSome || opt.type == some "object"

/-- True when the schema contributes at least one recognized option. -/
def schemaHasRecognized : Option (List SchemaOpt) → Bool
  | none => false
  | some opts => opts.any recognizedOpt

/-- Embeds the registryItem objects of the source.  The errorCount field is
undefined until a config is placed into a rule set, modelled by none. -/
structure RegistryItem where
  config : JVal
  specificity : Nat
  errorCount : Option Nat

/-- The store of registryItem objects; a reference is an index into it. -/
abbrev Store := List RegistryItem

/-- A reference to a registryItem in the store. -/
abbrev Ref := Nat

/-- The rules mapping of a Registry: rule id to the list of references to its
candidate registryItems, in insertion order. -/
abbrev RegistryRules := List (String × List Ref)

/-- Reads a registryItem from the store; out-of-range references never occur
in states reachable from the source. -/
def getItem (sigma : Store) (r : Ref) : RegistryItem :=
  sigma.getD r { config := JVal.num 0, specificity := 1, errorCount := none }

/-- Writes the errorCount field of one registryItem object in place. -/
def setErrorCount (sigma : Store) (r : Ref) (v : Option Nat) : Store :=
  sigma.set r { getItem sigma r with errorCount := v }

/-- The finding counters of a registry as observed through its rules mapping:
for every rule, the errorCount of each of its candidates. -/
def observeCounts (sigma : Store) (rules : RegistryRules) :
    List (String × List (Option Nat)) :=
  rules.map (fun e => (e.1, e.2.map (fun r => (getItem sigma r).errorCount)))

/-- All candidate references reachable from a rules mapping. -/
def refsOf (rules : RegistryRules) : List Ref :=
  rules.flatMap (fun e => e.2)

/-- Embeds the specificity computation config.length || 1 of makeRegistryItems:
array length, with the JavaScript quirk that a length of zero is falsy; values
without a numeric length give 1. -/
def jsSpecificity : JVal → Nat
  | JVal.arr xs => if xs.length = 0 then 1 else xs.length
  | JVal.str s => if s.length = 0 then 1 else s.length
  | _ => 1

/-- Embeds makeRegistryItems of the source: allocate a fresh registryItem for
every config of every rule, with computed specificity and undefined
errorCount.  Returns the extended store and the rules mapping. -/
def makeRegistryItems (sigma : Store) (rulesConfig : List (String × List JVal)) :
    Store × RegistryRules :=
  rulesConfig.foldl (fun acc e =>
    let refs := (List.range e.2.length).map (fun i => i + acc.1.length)
    (acc.1 ++ e.2.map (fun c =>
        { config := c, specificity := jsSpecificity c, errorCount := none }),
     acc.2 ++ [(e.1, refs)])) (sigma, [])

/-- The round-count ceiling of the source. -/
def MAX_CONFIG_COMBINATIONS : Nat := 17

/-- True when typeof v is the string "object" for the values representable
here: objects and arrays. -/
def jsTypeofObject : Option JVal → Bool
  | some (JVal.obj _) => true
  | some (JVal.arr _) => true
  | _ => false

/-- Element read c[i] on a config value. -/
def jsIndex : JVal → Nat → Option JVal
  | JVal.arr xs, i => xs.get? i
  | _, _ => none

/-- Embeds one pass of addRuleToRuleSet over all rules for a fixed round index
idx: each eligible candidate at position idx is placed into the round and its
errorCount is set to zero in the store.  A candidate of a rule with more than
MAX_CONFIG_COMBINATIONS configs is eligible only when its specificity is at
most 2 and its second config element is not object-typed. -/
def buildStep (sigma : Store) (rules : RegistryRules) (idx : Nat) :
    Store × List (String × JVal) :=
  rules.foldl (fun acc e =>
    let hasFewCombos := e.2.length ≤ MAX_CONFIG_COMBINATIONS
    match e.2.get? idx with
    | none => acc
    | some ref =>
      let item := getItem acc.1 ref
      if hasFewCombos ∨ item.specificity ≤ 2 then
        if ¬hasFewCombos ∧ jsTypeofObject (jsIndex item.config 1) then acc
        else (setErrorCount acc.1 ref (some 0), acc.2 ++ [(e.1, item.config)])
      else acc) (sigma, [])

/-- The while loop of buildRuleSets: keep building rounds at increasing
indices until a round comes out empty (the loop guard ruleSets.length === idx
then fails).  The fuel argument dominates the loop depth. -/
def buildLoop : Nat → Store → RegistryRules → Nat → Store × List (List (String × JVal))
  | 0, sigma, _, _ => (sigma, [])
  | fuel + 1, sigma, rules, idx =>
    let step := buildStep sigma rules idx
    if step.2.isEmpty then (step.1, [])
    else
      let rest := buildLoop fuel step.1 rules (idx + 1)
      (rest.1, step.2 :: rest.2)

/-- The largest candidate-list length of a rules mapping; past this index no
rule has a candidate, so every later round is empty. -/
def maxRefsLen (rules : RegistryRules) : Nat :=
  rules.foldl (fun m e => max m e.2.length) 0

/-- Embeds Registry.prototype.buildRuleSets of the source: builds the ordered
rounds and, as a side effect on the store, sets errorCount to zero for every
placed candidate.  The fuel maxRefsLen + 1 is enough for the loop to reach its
genuine exit, because at index maxRefsLen no rule has a candidate left. -/
def buildRuleSets (sigma : Store) (rules : RegistryRules) :
    Store × List (List (String × JVal)) :=
  buildLoop (maxRefsLen rules + 1) sigma rules 0

/-- One rule of stripFailingConfigs: the errorFreeItems are the candidates
whose errorCount is exactly zero (strict comparison, so an undefined counter
fails it); a rule with no surviving candidate is deleted from the mapping. -/
def stripFailingEntry (sigma : Store) (e : String × List Ref) :
    Option (String × List Ref) :=
  if (e.2.filter (fun r => (getItem sigma r).errorCount == some 0)).isEmpty then none
  else some (e.1, e.2.filter (fun r => (getItem sigma r).errorCount == some 0))

/-- Embeds Registry.prototype.stripFailingConfigs of the source: one
stripFailingEntry per rule.  The registryItem objects themselves are reused,
not copied. -/
def stripFailingConfigs (sigma : Store) (rules : RegistryRules) : RegistryRules :=
  rules.filterMap (stripFailingEntry sigma)

/-- Embeds Registry.prototype.stripExtraConfigs of the source: keep, per rule,
the candidates whose errorCount is defined; rules are never deleted here.  The
registryItem objects themselves are reused, not copied. -/
def stripExtraConfigs (sigma : Store) (rules : RegistryRules) : RegistryRules :=
  rules.map (fun e => (e.1, e.2.filter (fun r => (getItem sigma r).errorCount ≠ none)))

/-- Embeds Registry.prototype.filterBySpecificity of the source: keep, per
rule, the candidates with the requested specificity.  The registryItem objects
themselves are reused, not copied. -/
def filterBySpecificity (sigma : Store) (rules : RegistryRules) (specificity : Nat) :
    RegistryRules :=
  rules.map (fun e => (e.1, e.2.filter (fun r => (getItem sigma r).specificity == specificity)))

/-- Embeds Registry.prototype.createConfig of the source: walk the rules in
order and add to the produced rules section exactly the rule ids whose
candidate list has length one, each mapped to the config of its sole
candidate. -/
def createConfig (sigma : Store) : RegistryRules → List (String × JVal)
  | [] => []
  | e :: rest =>
    match e.2 with
    | [r] => (e.1, (getItem sigma r).config) :: createConfig sigma rest
    | _ => createConfig sigma rest

/-- The external Evaluator oracle: the outcome of the eslint.verify call made
for one (filename, round index) pair, either a thrown error or the list of
rule ids of the returned findings.  The source passes the SourceCode of the
file and the round config; both are determined by the pair at the call site. -/
abbrev VerifyFn := String → Nat → Except Unit (List String)

/-- Embeds the lintResults.forEach body of lintSourceCode: for each finding,
increment the errorCount of the candidate of that rule at the round index in
the linted registry.  A finding for an unknown rule or index raises a
TypeError inside the try block, so the remaining findings of that call are
dropped while earlier increments persist.  An undefined counter incremented
becomes NaN in JavaScript, which is modelled as staying undefined; after
stripExtraConfigs every reachable counter is defined, so this case never
fires in runs of the source. -/
def applyFindings (sigma : Store) (rules : RegistryRules) (ruleSetIdx : Nat) :
    List String → Store
  | [] => sigma
  | rid :: rest =>
    match lookupJs rid rules with
    | none => sigma
    | some refs =>
      match refs.get? ruleSetIdx with
      | none => sigma
      | some ref =>
        match (getItem sigma ref).errorCount with
        | none => applyFindings (setErrorCount sigma ref none) rules ruleSetIdx rest
        | some k => applyFindings (setErrorCount sigma ref (some (k + 1))) rules ruleSetIdx rest

/-- Embeds the inner ruleSets.forEach loop of lintSourceCode for one file: one
Evaluator call per round; a thrown call is caught and logged, contributing no
increments, and the loop continues with the next round. -/
def lintFile (verify : VerifyFn) (filename : String) (numRounds : Nat)
    (rules : RegistryRules) (sigma : Store) : Store :=
  (List.range numRounds).foldl (fun s idx =>
    match verify filename idx with
    | Except.error _ => s
    | Except.ok findings => applyFindings s rules idx findings) sigma

/-- Embeds the filenames.forEach loop of lintSourceCode: for every file run
every round against the evolving store, and null out the SourceCode entry of
each file once its rounds are done.  The mutation of the sourceCodes argument
is modelled by also returning the mapping as it stands after the loop. -/
def lintAllFiles {α : Type} (verify : VerifyFn) (numRounds : Nat)
    (rules : RegistryRules) (sigma : Store)
    (sourceCodes : List (String × Option α)) : Store × List (String × Option α) :=
  sourceCodes.foldl (fun acc fnsc =>
      (lintFile verify fnsc.1 numRounds rules acc.1, acc.2 ++ [(fnsc.1, none)]))
    (sigma, ([] : List (String × Option α)))

/-- Embeds Registry.prototype.lintSourceCode of the source: build the rounds
(setting placed counters to zero in the shared store), strip configs that
entered no round, then lint every file.  Returns the final store, the rules
mapping of the returned linted registry, and the sourceCodes mapping as the
caller observes it after the call. -/
def lintSourceCode {α : Type} (verify : VerifyFn) (sigma : Store)
    (rules : RegistryRules) (sourceCodes : List (String × Option α)) :
    Store × RegistryRules × List (String × Option α) :=
  let built := buildRuleSets sigma rules
  let stripped := stripExtraConfigs built.1 rules
  let res := lintAllFiles verify built.2.length stripped built.1 sourceCodes
  (res.1, stripped, res.2)

/-- Replaces the outcome of the Evaluator call at one (filename, round) pair
by a successful call returning no findings, leaving every other call alone. -/
def patchVerify (verify : VerifyFn) (f0 : String) (r0 : Nat) : VerifyFn :=
  fun f r => if f = f0 ∧ r = r0 then Except.ok [] else verify f r

/-- Modelled from the spec: getRulesWithOneConfig is called by configureRules
but is not among the source files; per the spec it emits the plain rule-id to
configuration mapping for rules with exactly one surviving candidate, which is
exactly the rules section produced by createConfig of the source. -/
def getRulesWithOneConfig (sigma : Store) (rules : RegistryRules) :
    List (String × JVal) :=
  createConfig sigma rules

/-- Modelled from the spec: getRulesWithSpecificity is called by
configureRules but is not among the source files; per the spec the selection
step computes filterBySpecificity for the requested specificity and emits the
per-rule single-survivor mapping, which is filterBySpecificity followed by
createConfig, both of the source. -/
def getRulesWithSpecificity (sigma : Store) (rules : RegistryRules) (n : Nat) :
    List (String × JVal) :=
  createConfig sigma (filterBySpecificity sigma rules n)

/-- Embeds the selection portion of configureRules of the source, applied to
the registry state reached after the evaluation pass: the disabled baseline
maps every rule of the registry to severity 0; the source then calls
stripFailingConfigs but drops the returned registry, so every bucket below is
computed from the unstripped registry; the buckets are merged by Object.assign
with later buckets winning on key collision, in the order disabled, default
(specificity 1), specificity 3, specificity 2, single-config rules. -/
def selectConfigRules (sigma : Store) (rules : RegistryRules) :
    List (String × JVal) :=
  let disabledConfigs := rules.map (fun e => (e.1, JVal.num 0))
  let singleConfigs := getRulesWithOneConfig sigma rules
  let specTwoConfigs := getRulesWithSpecificity sigma rules 2
  let specThreeConfigs := getRulesWithSpecificity sigma rules 3
  let defaultConfigs := getRulesWithSpecificity sigma rules 1
  jsAssignFields (jsAssignFields (jsAssignFields (jsAssignFields disabledConfigs
    defaultConfigs) specThreeConfigs) specTwoConfigs) singleConfigs

/-- Embeds the shape of configureRules of the source that the claims depend
on: when the resolved sourceCodes mapping is empty the failure is reported
(console.error and completing the prompt UI), but the function does not
return there; it proceeds to lint whatever resolved and emits the selected
configuration.  The registry (built from the core rule schemas in the source)
is a parameter.  Returns whether the empty-input failure was reported,
together with the rules section of the produced config. -/
def configureRules {α : Type} (verify : VerifyFn) (sigma : Store)
    (rules : RegistryRules) (sourceCodes : List (String × Option α)) :
    Bool × List (String × JVal) :=
  let inputErrorReported := sourceCodes.isEmpty
  let res := lintSourceCode verify sigma rules sourceCodes
  (inputErrorReported, selectConfigRules res.1 res.2.1)

mutual

/-- Embeds lodash.isequal as used by extendFromRecommended: deep structural
equality, with object comparison insensitive to key order. -/
def jsEqual : JVal → JVal → Bool
  | JVal.num a, JVal.num b => a == b
  | JVal.str a, JVal.str b => a == b
  | JVal.bool a, JVal.bool b => a == b
  | JVal.arr xs, JVal.arr ys => jsEqualList xs ys
  | JVal.obj xs, JVal.obj ys =>
      jsObjSub xs ys && ys.all (fun kv => xs.any (fun kv2 => kv2.1 == kv.1))
  | _, _ => false

/-- Pointwise deep equality of two value lists. -/
def jsEqualList : List JVal → List JVal → Bool
  | [], [] => true
  | x :: xs, y :: ys => jsEqual x y && jsEqualList xs ys
  | _, _ => false

/-- Every field of the first object is present with a deep-equal value in the
second. -/
def jsObjSub : List (String × JVal) → List (String × JVal) → Bool
  | [], _ => true
  | kv :: rest, ys =>
      (match ys.find? (fun kv2 => kv2.1 == kv.1) with
       | some kv2 => jsEqual kv.2 kv2.2
       | none => false) && jsObjSub rest ys

end

/-- Embeds the recommended-severity test of extendFromRecommended: the value
is the number 2 or an array whose first element is the number 2 (strict
comparisons in the source). -/
def severityIsError : JVal → Bool
  | JVal.num n => n == 2
  | JVal.arr (JVal.num n :: _) => n == 2
  | _ => false

/-- Property deletion on a JavaScript object modelled as an association
list. -/
def eraseKey {β : Type} (k : String) (m : List (String × β)) : List (String × β) :=
  m.filter (fun kv => !(kv.1 == k))

/-- One iteration of the recRules.forEach loop of extendFromRecommended:
delete the rule from the accumulated rules when its selected configuration is
deep-equal to the recommended one (a rule absent from the selected rules
compares unequal to the defined recommended value, so nothing happens). -/
def extendStep (recRules : List (String × JVal)) (acc : List (String × JVal))
    (rid : String) : List (String × JVal) :=
  match lookupJs rid recRules, lookupJs rid acc with
  | some rv, some cv => if jsEqual rv cv then eraseKey rid acc else acc
  | _, _ => acc

/-- Embeds extendFromRecommended of the source: for every rule whose
recommended configuration has severity 2 (the rule ids kept by the recRules
filter), run one extendStep, and set extends to eslint:recommended.  Takes
the rules sections of the selected config and of the recommended config;
returns the emitted rules section and the extends value. -/
def extendFromRecommended (configRules recRules : List (String × JVal)) :
    List (String × JVal) × String :=
  let recOnIds := (recRules.filter (fun kv => severityIsError kv.2)).map (fun kv => kv.1)
  (recOnIds.foldl (extendStep recRules) configRules, "eslint:recommended")

/-- A registry state at the selection point of configureRules, after an
evaluation pass in which the rule r kept zero-finding candidates at
specificities 1, 2 and 3 (the bare severity, the config with option a, and
the three-element config) while the second specificity-2 candidate (option b)
produced five findings. -/
def storeC1 : Store :=
  [ { config := JVal.num 2, specificity := 1, errorCount := some 0 },
    { config := JVal.arr [JVal.num 2, JVal.str "a"], specificity := 2,
      errorCount := some 0 },
    { config := JVal.arr [JVal.num 2, JVal.str "b"], specificity := 2,
      errorCount := some 5 },
    { config := JVal.arr [JVal.num 2, JVal.str "a", JVal.str "c"], specificity := 3,
      errorCount := some 0 } ]

/-- The rules mapping going with storeC1. -/
def rulesC1 : RegistryRules := [("r", [0, 1, 2, 3])]

/-- A registry with a single rule holding one bare-severity candidate and
seventeen specificity-2 candidates with numeric option values, eighteen
candidates in total, exceeding MAX_CONFIG_COMBINATIONS. -/
def regC2 : Store × RegistryRules :=
  makeRegistryItems []
    [("r", JVal.num 2 ::
      (List.range MAX_CONFIG_COMBINATIONS).map
        (fun i => JVal.arr [JVal.num 2, JVal.num (Int.ofNat i)]))]

/-- A one-rule, one-candidate registry: its single item has counter zero. -/
def storeC3 : Store :=
  [ { config := JVal.num 2, specificity := 1, errorCount := some 0 } ]

/-- The rules mapping going with storeC3. -/
def rulesC3 : RegistryRules := [("no-console", [0])]

/-- A registry with a single rule and its single bare-severity candidate, as
built by makeRegistryItems. -/
def regC4 : Store × RegistryRules :=
  makeRegistryItems [] [("semi", [JVal.num 2])]

/-- An Evaluator oracle whose call for file a at round 0 throws and whose
every other call returns no findings. -/
def vfC5 : VerifyFn :=
  fun f r => if f = "a" ∧ r = 0 then Except.error () else Except.ok []

/-- A schema whose single option carries only a oneOf alternation, which the
expander does not recognize. -/
def schemaC6 : Option (List SchemaOpt) :=
  some [{ enum := none, type := none, properties := [], oneOf := true }]

/-- A registry with one single-candidate rule a and one two-candidate rule
b. -/
def regC7 : Store × RegistryRules :=
  makeRegistryItems []
    [("a", [JVal.num 2]),
     ("b", [JVal.num 2, JVal.arr [JVal.num 2, JVal.str "x"]])]

/-- Filtering twice with the same predicate filters once. -/
theorem filter_idem {α : Type} (p : α → Bool) :
    ∀ l : List α, (l.filter p).filter p = l.filter p := by
  intro l
  induction l with
  | nil => rfl
  | cons x xs ih =>
    by_cases h : p x
    · simp [List.filter_cons, h, ih]
    · simp [List.filter_cons, h, ih]

/-- A surviving stripFailingEntry output survives a second application
unchanged: its candidate list is already filtered to zero counters. -/
theorem stripFailingEntry_idem {sigma : Store} {e b : String × List Ref}
    (h : stripFailingEntry sigma e = some b) :
    stripFailingEntry sigma b = some b := by
  unfold stripFailingEntry at h ⊢
  by_cases hemp : (e.2.filter (fun r => (getItem sigma r).errorCount == some 0)).isEmpty
  · rw [if_pos hemp] at h
    exact absurd h (by simp)
  · rw [if_neg hemp] at h
    cases h
    rw [filter_idem]
    rw [if_neg hemp]

/-- C8: stripFailingConfigs is idempotent: one application keeps, per rule,
exactly the candidates whose finding counter is exactly zero and deletes
every rule left without a surviving candidate, and a second application over
the same store changes nothing further. -/
theorem stripFailingConfigs_idempotent (sigma : Store) (rules : RegistryRules) :
    stripFailingConfigs sigma (stripFailingConfigs sigma rules) =
      stripFailingConfigs sigma rules := by
  induction rules with
  | nil => rfl
  | cons e rest ih =>
    unfold stripFailingConfigs at ih ⊢
    cases h : stripFailingEntry sigma e with
    | none =>
      simp only [List.filterMap_cons, h]
      exact ih
    | some b =>
      simp only [List.filterMap_cons, h, stripFailingEntry_idem h]
      rw [ih]

/-- The sourceCodes mapping accumulated by the filenames loop: every processed
entry is appended with its value nulled out. -/
theorem lintAllFiles_snd {α : Type} (verify : VerifyFn) (numRounds : Nat)
    (rules : RegistryRules) :
    ∀ (sourceCodes : List (String × Option α)) (sigma : Store)
      (out : List (String × Option α)),
    (sourceCodes.foldl (fun acc fnsc =>
        (lintFile verify fnsc.1 numRounds rules acc.1, acc.2 ++ [(fnsc.1, none)]))
      (sigma, out)).2
      = out ++ sourceCodes.map (fun fnsc => (fnsc.1, none)) := by
  intro sourceCodes
  induction sourceCodes with
  | nil => intro sigma out; simp
  | cons x xs ih =>
    intro sigma out
    simp only [List.foldl_cons, List.map_cons, ih, List.append_assoc, List.cons_append,
      List.nil_append]

/-- C10: lintSourceCode destroys the sourceCodes mapping handed to it: after
the call, every entry of the mapping the caller passed has been set to null
(the source assigns null to each entry once the rounds of that file are
done), so no second evaluation pass can reuse it.  The mutation is modelled
by the mapping lintSourceCode returns to the caller. -/
theorem lintSourceCode_nulls_all_source_codes {α : Type} (verify : VerifyFn)
    (sigma : Store) (rules : RegistryRules)
    (sourceCodes : List (String × Option α)) :
    (lintSourceCode verify sigma rules sourceCodes).2.2 =
      sourceCodes.map (fun fnsc => (fnsc.1, (none : Option α))) := by
  simp only [lintSourceCode, lintAllFiles]
  rw [lintAllFiles_snd]
  simp

/-- C2: evaluating buildRuleSets on the registry regC2, whose single rule has
eighteen candidates (one more than MAX_CONFIG_COMBINATIONS) that are all of
specificity at most 2 with non-object option values, yields eighteen rounds:
the round count is not capped once the candidate count exceeds the ceiling,
because every candidate of specificity at most 2 with a non-object option
still participates, so the round count grows with the candidate count,
against the claim and against the stated bound of the source that the
returned array length is at most MAX_CONFIG_COMBINATIONS. -/
theorem buildRuleSets_round_count_exceeds_ceiling :
    (lookupJs "r" regC2.2).map List.length = some (MAX_CONFIG_COMBINATIONS + 1)
    ∧ (buildRuleSets regC2.1 regC2.2).2.length = MAX_CONFIG_COMBINATIONS + 1
    ∧ MAX_CONFIG_COMBINATIONS < (buildRuleSets regC2.1 regC2.2).2.length := by
  refine ⟨rfl, rfl, ?_⟩
  decide

/-- C1: evaluating the selection of configureRules on the registry state
storeC1 and rulesC1.  After elimination the rule r has exactly one surviving
candidate at each of the specificities 1, 2 and 3 (and three survivors
overall), as the first conjunct shows, so the claim expects the
specificity-2 config.  But the source discards the registry returned by
stripFailingConfigs, so the selection buckets are computed from the
uneliminated registry, in which r has two specificity-2 candidates; the
specificity-2 bucket therefore skips r and the merged configuration carries
the specificity-3 config (second conjunct).  The same selection applied to
the properly eliminated registry yields the specificity-2 config the claim
describes (third conjunct). -/
theorem selectConfigRules_ignores_elimination :
    stripFailingConfigs storeC1 rulesC1 = [("r", [0, 1, 3])]
    ∧ lookupJs "r" (selectConfigRules storeC1 rulesC1)
        = some (JVal.arr [JVal.num 2, JVal.str "a", JVal.str "c"])
    ∧ lookupJs "r" (selectConfigRules storeC1 (stripFailingConfigs storeC1 rulesC1))
        = some (JVal.arr [JVal.num 2, JVal.str "a"]) := by
  exact ⟨rfl, rfl, rfl⟩

/-- C4: evaluating configureRules on an empty sourceCodes mapping with the
one-rule registry regC4.  The outcome does not depend on the Evaluator (it is
never invoked: the result is the same for any two oracles), the empty-input
failure is reported, and yet the function does not stop there: lacking a
return after reporting, it continues, lints zero files, and emits a full
configuration enabling the rule semi, against the claim that synthesis
terminates with no partial configuration produced. -/
theorem configureRules_zero_files_still_emits_config :
    ∀ verify verify2 : VerifyFn,
      configureRules verify regC4.1 regC4.2 ([] : List (String × Option Unit)) =
        configureRules verify2 regC4.1 regC4.2 ([] : List (String × Option Unit))
      ∧ (configureRules verify regC4.1 regC4.2 ([] : List (String × Option Unit))).1 = true
      ∧ (configureRules verify regC4.1 regC4.2 ([] : List (String × Option Unit))).2
          = [("semi", JVal.num 2)] := by
  intro verify verify2
  exact ⟨rfl, rfl, rfl⟩

/-- C3 counterexample: the claim says later counter mutations performed
through one registry are not observable through the other.  Here the
snapshot returned by stripFailingConfigs keeps the very same item reference,
and one evaluation-pass increment performed through the snapshot (one
finding for the rule at round 0, exactly the increment lintSourceCode does)
changes the finding counters observed through the input registry. -/
theorem stripFailingConfigs_snapshot_not_independent :
    stripFailingConfigs storeC3 rulesC3 = rulesC3
    ∧ observeCounts
        (applyFindings storeC3 (stripFailingConfigs storeC3 rulesC3) 0 ["no-console"])
        rulesC3
      ≠ observeCounts storeC3 rulesC3 := by
  exact ⟨rfl, by decide⟩

/-- Equal maps over the same list agree on every member. -/
theorem map_eq_map_mem {α β : Type} {f g : α → β} :
    ∀ {l : List α}, l.map f = l.map g → ∀ x ∈ l, f x = g x := by
  intro l
  induction l with
  | nil => intro _ x hx; cases hx
  | cons a as ih =>
    intro h x hx
    rw [List.map_cons, List.map_cons, List.cons_eq_cons] at h
    rcases List.mem_cons.1 hx with rfl | hx2
    · exact h.1
    · exact ih h.2 x hx2

/-- Writing the errorCount of an item in range is read back at the same
reference. -/
theorem getItem_setErrorCount_self :
    ∀ (sigma : Store) (ref : Ref) (v : Option Nat), ref < sigma.length →
      (getItem (setErrorCount sigma ref v) ref).errorCount = v := by
  intro sigma
  induction sigma with
  | nil => intro ref v h; cases h
  | cons a as ih =>
    intro ref v h
    cases ref with
    | zero => rfl
    | succ r =>
      have h2 : r < as.length := Nat.lt_of_succ_lt_succ h
      have := ih r v h2
      simpa [setErrorCount, getItem, List.set] using this

/-- A candidate reference of a stripFailingConfigs snapshot is a candidate
reference of the input registry. -/
theorem mem_refsOf_stripFailingConfigs {sigma : Store} {rules : RegistryRules}
    {ref : Ref} (h : ref ∈ refsOf (stripFailingConfigs sigma rules)) :
    ref ∈ refsOf rules := by
  simp only [refsOf, List.mem_flatMap] at h ⊢
  obtain ⟨e, he, href⟩ := h
  simp only [stripFailingConfigs, List.mem_filterMap] at he
  obtain ⟨e0, he0, hf⟩ := he
  unfold stripFailingEntry at hf
  by_cases hemp : (e0.2.filter (fun r => (getItem sigma r).errorCount == some 0)).isEmpty
  · rw [if_pos hemp] at hf
    cases hf
  · rw [if_neg hemp] at hf
    cases hf
    exact ⟨e0, he0, List.mem_of_mem_filter href⟩

/-- A candidate reference of a stripExtraConfigs snapshot is a candidate
reference of the input registry. -/
theorem mem_refsOf_stripExtraConfigs {sigma : Store} {rules : RegistryRules}
    {ref : Ref} (h : ref ∈ refsOf (stripExtraConfigs sigma rules)) :
    ref ∈ refsOf rules := by
  simp only [refsOf, List.mem_flatMap] at h ⊢
  obtain ⟨e, he, href⟩ := h
  simp only [stripExtraConfigs, List.mem_map] at he
  obtain ⟨e0, he0, rfl⟩ := he
  exact ⟨e0, he0, List.mem_of_mem_filter href⟩

/-- A candidate reference of a filterBySpecificity snapshot is a candidate
reference of the input registry. -/
theorem mem_refsOf_filterBySpecificity {sigma : Store} {rules : RegistryRules}
    {n : Nat} {ref : Ref} (h : ref ∈ refsOf (filterBySpecificity sigma rules n)) :
    ref ∈ refsOf rules := by
  simp only [refsOf, List.mem_flatMap] at h ⊢
  obtain ⟨e, he, href⟩ := h
  simp only [filterBySpecificity, List.mem_map] at he
  obtain ⟨e0, he0, rfl⟩ := he
  exact ⟨e0, he0, List.mem_of_mem_filter href⟩

/-- C3 amended: stripFailingConfigs, stripExtraConfigs and
filterBySpecificity return fresh rules mappings without touching the store
(they only read it), so the input registry is unchanged by the call itself;
but the snapshots reuse the registryItem objects of the input (every
candidate reference of the snapshot is a candidate reference of the input),
so a later counter mutation performed through the snapshot, as the
evaluation pass does, is observable through the input registry: writing a
different errorCount at a shared reference changes the counters observed
through the input. -/
theorem registry_snapshots_share_registry_items
    (sigma : Store) (rules : RegistryRules) (n : Nat) (ref : Ref)
    (hshared : ref ∈ refsOf (stripFailingConfigs sigma rules)
      ∨ ref ∈ refsOf (stripExtraConfigs sigma rules)
      ∨ ref ∈ refsOf (filterBySpecificity sigma rules n))
    (hlt : ref < sigma.length) (v : Option Nat)
    (hv : (getItem sigma ref).errorCount ≠ v) :
    ref ∈ refsOf rules
    ∧ observeCounts (setErrorCount sigma ref v) rules ≠ observeCounts sigma rules := by
  have hmem : ref ∈ refsOf rules := by
    rcases hshared with h | h | h
    · exact mem_refsOf_stripFailingConfigs h
    · exact mem_refsOf_stripExtraConfigs h
    · exact mem_refsOf_filterBySpecificity h
  refine ⟨hmem, ?_⟩
  intro heq
  simp only [refsOf, List.mem_flatMap] at hmem
  obtain ⟨e, he, href⟩ := hmem
  have h1 := map_eq_map_mem heq e he
  have h2 : e.2.map (fun r => (getItem (setErrorCount sigma ref v) r).errorCount)
      = e.2.map (fun r => (getItem sigma r).errorCount) :=
    congrArg Prod.snd h1
  have h3 := map_eq_map_mem h2 ref href
  rw [getItem_setErrorCount_self sigma ref v hlt] at h3
  exact hv h3.symm

/-- C3 amended, witnessed at the concrete one-rule registry: the reference
kept by the stripFailingConfigs snapshot belongs to the input registry and
overwriting its counter changes the counters observed through the input. -/
theorem registry_snapshots_share_registry_items_witness :
    (0 : Ref) ∈ refsOf rulesC3
    ∧ observeCounts (setErrorCount storeC3 0 (some 1)) rulesC3
        ≠ observeCounts storeC3 rulesC3 :=
  registry_snapshots_share_registry_items storeC3 rulesC3 2 0
    (Or.inl (by decide)) (by decide) (some 1) (by decide)

/-- Applying an empty findings list changes nothing. -/
theorem applyFindings_nil (sigma : Store) (rules : RegistryRules) (idx : Nat) :
    applyFindings sigma rules idx [] = sigma := rfl

/-- C5: a failing Evaluator call is absorbed: when the call for one
(filename, round) pair throws, the whole evaluation pass computes exactly
what it computes when that call instead succeeds with zero findings — the
failing call contributes no counter increment, every remaining (file, round)
pair is still processed, and the pass returns normally (lintSourceCode is a
total function of the oracle). -/
theorem lintSourceCode_absorbs_failing_evaluator_call {α : Type}
    (verify : VerifyFn) (sigma : Store) (rules : RegistryRules)
    (sourceCodes : List (String × Option α)) (f0 : String) (r0 : Nat) (e : Unit)
    (hfail : verify f0 r0 = Except.error e) :
    lintSourceCode verify sigma rules sourceCodes =
      lintSourceCode (patchVerify verify f0 r0) sigma rules sourceCodes := by
  have hfile : ∀ (f : String) (n : Nat) (R : RegistryRules) (s : Store),
      lintFile verify f n R s = lintFile (patchVerify verify f0 r0) f n R s := by
    intro f n R s
    unfold lintFile
    congr 1
    funext s2 idx
    by_cases h1 : f = f0 ∧ idx = r0
    · obtain ⟨hf, hr⟩ := h1
      subst hf
      subst hr
      rw [hfail]
      simp [patchVerify, applyFindings_nil]
    · simp [patchVerify, h1]
  have hall : ∀ (n : Nat) (R : RegistryRules) (s : Store)
      (scs : List (String × Option α)),
      lintAllFiles verify n R s scs = lintAllFiles (patchVerify verify f0 r0) n R s scs := by
    intro n R s scs
    unfold lintAllFiles
    congr 1
    funext acc fnsc
    rw [hfile]
  simp only [lintSourceCode, hall]

/-- C5 witnessed at a concrete pass: the oracle vfC5 throws for file a at
round 0, and the pass over the one-rule registry and the single file a
computes exactly what it computes with that call patched to return no
findings. -/
theorem lintSourceCode_absorbs_failing_evaluator_call_witness :
    vfC5 "a" 0 = Except.error ()
    ∧ lintSourceCode vfC5 storeC3 rulesC3 [("a", some 0)] =
        lintSourceCode (patchVerify vfC5 "a" 0) storeC3 rulesC3
          [("a", (some 0 : Option Nat))] :=
  ⟨rfl,
   lintSourceCode_absorbs_failing_evaluator_call vfC5 storeC3 rulesC3
     [("a", (some 0 : Option Nat))] "a" 0 () rfl⟩

/-- Every output of combineArrays is an array value. -/
theorem combineArrays_all_arr :
    ∀ (a b : List JVal), ∀ c ∈ combineArrays a b, ∃ xs, c = JVal.arr xs := by
  intro a b c hc
  cases a with
  | nil =>
    simp only [combineArrays, explodeArray, List.mem_map] at hc
    obtain ⟨x, _, rfl⟩ := hc
    exact ⟨[x], rfl⟩
  | cons a1 as =>
    cases b with
    | nil =>
      simp only [combineArrays, explodeArray, List.mem_map] at hc
      obtain ⟨x, _, rfl⟩ := hc
      exact ⟨[x], rfl⟩
    | cons b1 bs =>
      simp only [combineArrays, List.mem_flatMap, List.mem_map] at hc
      obtain ⟨x1, _, x2, _, rfl⟩ := hc
      exact ⟨_, rfl⟩

/-- applySchemaOpt keeps every accumulated config an array value. -/
theorem applySchemaOpt_all_arr {rcs : List JVal} {opt : SchemaOpt}
    (h : ∀ c ∈ rcs, ∃ xs, c = JVal.arr xs) :
    ∀ c ∈ applySchemaOpt rcs opt, ∃ xs, c = JVal.arr xs := by
  intro c hc
  unfold applySchemaOpt at hc
  have henum : ∀ c2 ∈ (match opt.enum with
      | some es => addEnums rcs es
      | none => rcs), ∃ xs, c2 = JVal.arr xs := by
    intro c2 hc2
    cases hopt : opt.enum with
    | none => rw [hopt] at hc2; exact h c2 hc2
    | some es =>
      rw [hopt] at hc2
      rcases List.mem_append.1 hc2 with h1 | h2
      · exact h c2 h1
      · exact combineArrays_all_arr rcs es c2 h2
  by_cases hobj : opt.type == some "object"
  · rw [if_pos hobj] at hc
    rcases List.mem_append.1 hc with h1 | h2
    · exact henum c h1
    · exact combineArrays_all_arr _ _ c h2
  · rw [if_neg hobj] at hc
    exact henum c hc

/-- Every config accumulated by the schema loop is an array value. -/
theorem schemaBaseConfigs_all_arr (schema : Option (List SchemaOpt)) :
    ∀ c ∈ schemaBaseConfigs schema, ∃ xs, c = JVal.arr xs := by
  cases schema with
  | none => intro c hc; cases hc
  | some opts =>
    show ∀ c ∈ opts.foldl applySchemaOpt [], _
    have general : ∀ (os : List SchemaOpt) (rcs : List JVal),
        (∀ c ∈ rcs, ∃ xs, c = JVal.arr xs) →
        ∀ c ∈ os.foldl applySchemaOpt rcs, ∃ xs, c = JVal.arr xs := by
      intro os
      induction os with
      | nil => intro rcs h c hc; exact h c hc
      | cons o os2 ih =>
        intro rcs h c hc
        exact ih (applySchemaOpt rcs o) (fun c2 hc2 => applySchemaOpt_all_arr h c2 hc2) c hc
    exact general opts [] (fun c hc => absurd hc (List.not_mem_nil c))

/-- An unrecognized option leaves the accumulated configs unchanged. -/
theorem applySchemaOpt_unrecognized {rcs : List JVal} {opt : SchemaOpt}
    (h : recognizedOpt opt = false) : applySchemaOpt rcs opt = rcs := by
  unfold recognizedOpt at h
  rw [Bool.or_eq_false_iff] at h
  unfold applySchemaOpt
  rw [if_neg (by simp [h.2])]
  cases hopt : opt.enum with
  | none => rfl
  | some es => rw [hopt] at h; cases h.1

/-- C6: for every schema, the candidate list of generateConfigsFromSchema
consists of exactly one bare-severity candidate, placed at the front, while
every other candidate is a tuple whose first element is the error severity 2;
and when no option of the schema is recognized by the expander, the output is
exactly the single bare-severity candidate. -/
theorem generateConfigsFromSchema_severities (schema : Option (List SchemaOpt)) :
    (∃ rest, generateConfigsFromSchema schema = JVal.num 2 :: rest
      ∧ ∀ c ∈ rest, ∃ xs, c = JVal.arr (JVal.num 2 :: xs))
    ∧ (schemaHasRecognized schema = false →
        generateConfigsFromSchema schema = [JVal.num 2]) := by
  constructor
  · refine ⟨(schemaBaseConfigs schema).map (prependSeverity 2), rfl, ?_⟩
    intro c hc
    rw [List.mem_map] at hc
    obtain ⟨c0, hc0, rfl⟩ := hc
    obtain ⟨xs, rfl⟩ := schemaBaseConfigs_all_arr schema c0 hc0
    exact ⟨xs, rfl⟩
  · intro hnone
    have hbase : schemaBaseConfigs schema = [] := by
      cases schema with
      | none => rfl
      | some opts =>
        show opts.foldl applySchemaOpt [] = []
        unfold schemaHasRecognized at hnone
        rw [List.any_eq_false] at hnone
        have general : ∀ (os : List SchemaOpt), (∀ o ∈ os, ¬recognizedOpt o) →
            ∀ rcs : List JVal, os.foldl applySchemaOpt rcs = rcs := by
          intro os
          induction os with
          | nil => intro _ rcs; rfl
          | cons o os2 ih =>
            intro h rcs
            rw [List.foldl_cons,
              applySchemaOpt_unrecognized (Bool.eq_false_iff.2 (h o (List.mem_cons_self o os2))),
              ih (fun o2 ho2 => h o2 (List.mem_cons_of_mem o ho2))]
        exact general opts hnone []
    rw [generateConfigsFromSchema, hbase]
    rfl

/-- C6 witnessed at the oneOf-only schema: it has no recognized option and
expands to exactly the single bare-severity candidate. -/
theorem generateConfigsFromSchema_severities_witness :
    schemaHasRecognized schemaC6 = false
    ∧ generateConfigsFromSchema schemaC6 = [JVal.num 2] :=
  ⟨rfl, (generateConfigsFromSchema_severities schemaC6).2 rfl⟩

/-- Looking up the key of the head entry gives its value. -/
theorem lookupJs_cons_self {β : Type} {k : String} {b : β} {rest : List (String × β)}
    {rid : String} (h : (k == rid) = true) :
    lookupJs rid ((k, b) :: rest) = some b := by
  simp [lookupJs, h]

/-- Looking up a key different from the head entry skips it. -/
theorem lookupJs_cons_ne {β : Type} {k : String} {b : β} {rest : List (String × β)}
    {rid : String} (h : (k == rid) = false) :
    lookupJs rid ((k, b) :: rest) = lookupJs rid rest := by
  simp [lookupJs, h]

/-- A rule id absent from the rules mapping is absent from the createConfig
output. -/
theorem lookupJs_createConfig_of_not_mem (sigma : Store) :
    ∀ (rules : RegistryRules) (rid : String), rid ∉ rules.map Prod.fst →
    lookupJs rid (createConfig sigma rules) = none := by
  intro rules
  induction rules with
  | nil => intro rid _; rfl
  | cons e rest ih =>
    obtain ⟨k, refs⟩ := e
    intro rid h
    rw [List.map_cons] at h
    simp only [List.mem_cons, not_or] at h
    have h1 : (k == rid) = false := by
      rw [beq_eq_false_iff_ne]
      intro hh
      exact h.1 hh.symm
    cases refs with
    | nil =>
      simp only [createConfig]
      exact ih rid h.2
    | cons r rs =>
      cases rs with
      | nil =>
        simp only [createConfig]
        rw [lookupJs_cons_ne h1]
        exact ih rid h.2
      | cons r2 rs2 =>
        simp only [createConfig]
        exact ih rid h.2

/-- C7: createConfig, the mapping getRulesWithOneConfig emits, on a registry
whose rule ids are distinct (as JavaScript object keys always are), contains
a rule id exactly if its candidate list has exactly one entry, and then maps
it to the config of that sole candidate. -/
theorem createConfig_single_survivor_iff (sigma : Store) :
    ∀ (rules : RegistryRules), (rules.map Prod.fst).Nodup →
    ∀ (rid : String) (v : JVal),
    lookupJs rid (createConfig sigma rules) = some v
      ↔ ∃ ref, lookupJs rid rules = some [ref] ∧ v = (getItem sigma ref).config := by
  intro rules
  induction rules with
  | nil => intro _ rid v; simp [createConfig, lookupJs]
  | cons e rest ih =>
    obtain ⟨k, refs⟩ := e
    intro hnd rid v
    rw [List.map_cons, List.nodup_cons] at hnd
    cases hb : k == rid with
    | false =>
      rw [lookupJs_cons_ne hb]
      cases refs with
      | nil =>
        simp only [createConfig]
        exact ih hnd.2 rid v
      | cons r rs =>
        cases rs with
        | nil =>
          simp only [createConfig]
          rw [lookupJs_cons_ne hb]
          exact ih hnd.2 rid v
        | cons r2 rs2 =>
          simp only [createConfig]
          exact ih hnd.2 rid v
    | true =>
      have hbe : k = rid := eq_of_beq hb
      rw [lookupJs_cons_self hb]
      cases refs with
      | nil =>
        simp only [createConfig]
        rw [lookupJs_createConfig_of_not_mem sigma rest rid (hbe ▸ hnd.1)]
        constructor
        · intro h; cases h
        · rintro ⟨ref, hr, _⟩
          simp at hr
      | cons r rs =>
        cases rs with
        | nil =>
          simp only [createConfig]
          rw [lookupJs_cons_self hb]
          constructor
          · intro h
            exact ⟨r, rfl, (Option.some_inj.1 h).symm⟩
          · rintro ⟨ref, hr, hv⟩
            have hre : r = ref := by simpa using hr
            rw [hv, hre]
        | cons r2 rs2 =>
          simp only [createConfig]
          rw [lookupJs_createConfig_of_not_mem sigma rest rid (hbe ▸ hnd.1)]
          constructor
          · intro h; cases h
          · rintro ⟨ref, hr, _⟩
            simp at hr

/-- C7 witnessed at the two-rule registry regC7: the single-candidate rule a
appears in the createConfig mapping with its sole candidate config. -/
theorem createConfig_single_survivor_iff_witness :
    lookupJs "a" (createConfig regC7.1 regC7.2) = some (JVal.num 2) :=
  (createConfig_single_survivor_iff regC7.1 regC7.2 (by decide) "a" (JVal.num 2)).mpr
    ⟨0, rfl, rfl⟩

/-- Deleting a key removes it from lookup. -/
theorem lookupJs_eraseKey_self {β : Type} (k : String) :
    ∀ m : List (String × β), lookupJs k (eraseKey k m) = none := by
  intro m
  induction m with
  | nil => rfl
  | cons e rest ih =>
    obtain ⟨ek, ev⟩ := e
    by_cases h : ek == k
    · simpa [eraseKey, List.filter_cons, h] using ih
    · have hb : (ek == k) = false := by simpa using h
      simp only [eraseKey, List.filter_cons] at ih ⊢
      simp only [hb, Bool.not_false, if_true]
      rw [lookupJs_cons_ne hb]
      exact ih

/-- Deleting one key leaves lookups of other keys unchanged. -/
theorem lookupJs_eraseKey_ne {β : Type} {k k2 : String} (hne : k2 ≠ k) :
    ∀ m : List (String × β), lookupJs k (eraseKey k2 m) = lookupJs k m := by
  intro m
  induction m with
  | nil => rfl
  | cons e rest ih =>
    obtain ⟨ek, ev⟩ := e
    by_cases h : ek == k2
    · have hk : (ek == k) = false := by
        rw [beq_eq_false_iff_ne]
        intro hh
        exact hne ((eq_of_beq h).symm.trans hh)
      simp only [eraseKey, List.filter_cons, h, Bool.not_true, Bool.false_eq_true,
        if_false] at ih ⊢
      rw [ih, lookupJs_cons_ne hk]
    · have hb : (ek == k2) = false := by simpa using h
      simp only [eraseKey, List.filter_cons, hb, Bool.not_false, if_true] at ih ⊢
      by_cases hk : ek == k
      · rw [lookupJs_cons_self hk, lookupJs_cons_self hk]
      · have hkb : (ek == k) = false := by simpa using hk
        rw [lookupJs_cons_ne hkb, lookupJs_cons_ne hkb]
        exact ih

/-- extendStep when the rule is present on both sides. -/
theorem extendStep_eq_some_some {recRules acc : List (String × JVal)}
    {rid2 : String} {rv cv : JVal} (h1 : lookupJs rid2 recRules = some rv)
    (h2 : lookupJs rid2 acc = some cv) :
    extendStep recRules acc rid2
      = if jsEqual rv cv then eraseKey rid2 acc else acc := by
  unfold extendStep
  rw [h1, h2]

/-- extendStep when the rule is absent from the accumulated rules. -/
theorem extendStep_eq_of_acc_none {recRules acc : List (String × JVal)}
    {rid2 : String} (h2 : lookupJs rid2 acc = none) :
    extendStep recRules acc rid2 = acc := by
  unfold extendStep
  cases h1 : lookupJs rid2 recRules with
  | none => rfl
  | some rv => rw [h2]

/-- An extendStep for any rule cannot resurrect a deleted key. -/
theorem extendStep_keeps_none {recRules acc : List (String × JVal)}
    {rid rid2 : String} (h : lookupJs rid acc = none) :
    lookupJs rid (extendStep recRules acc rid2) = none := by
  cases h1 : lookupJs rid2 recRules with
  | none =>
    unfold extendStep
    rw [h1]
    exact h
  | some rv =>
    cases h2 : lookupJs rid2 acc with
    | none =>
      rw [extendStep_eq_of_acc_none h2]
      exact h
    | some cv =>
      rw [extendStep_eq_some_some h1 h2]
      by_cases heq : jsEqual rv cv
      · rw [if_pos heq]
        by_cases hsame : rid2 = rid
        · rw [hsame, lookupJs_eraseKey_self]
        · rw [lookupJs_eraseKey_ne hsame]
          exact h
      · rw [if_neg heq]
        exact h

/-- An extendStep for a different rule leaves a lookup unchanged. -/
theorem extendStep_other {recRules acc : List (String × JVal)}
    {rid rid2 : String} (h : rid2 ≠ rid) :
    lookupJs rid (extendStep recRules acc rid2) = lookupJs rid acc := by
  cases h1 : lookupJs rid2 recRules with
  | none =>
    unfold extendStep
    rw [h1]
  | some rv =>
    cases h2 : lookupJs rid2 acc with
    | none => rw [extendStep_eq_of_acc_none h2]
    | some cv =>
      rw [extendStep_eq_some_some h1 h2]
      by_cases heq : jsEqual rv cv
      · rw [if_pos heq]
        exact lookupJs_eraseKey_ne h acc
      · rw [if_neg heq]

/-- A deleted key stays deleted over the whole fold. -/
theorem extendFold_keeps_none {recRules : List (String × JVal)} {rid : String} :
    ∀ (ids : List String) (acc : List (String × JVal)),
    lookupJs rid acc = none →
    lookupJs rid (ids.foldl (extendStep recRules) acc) = none := by
  intro ids
  induction ids with
  | nil => intro acc h; exact h
  | cons i rest ih =>
    intro acc h
    rw [List.foldl_cons]
    exact ih _ (extendStep_keeps_none h)

/-- When the selected config of the rule deep-equals the recommended one, the
fold deletes the rule as soon as its id is processed. -/
theorem extendFold_deletes_equal {recRules : List (String × JVal)} {rid : String}
    {rv cv : JVal} (hrec : lookupJs rid recRules = some rv)
    (heq : jsEqual rv cv = true) :
    ∀ (ids : List String) (acc : List (String × JVal)), rid ∈ ids →
    lookupJs rid acc = some cv →
    lookupJs rid (ids.foldl (extendStep recRules) acc) = none := by
  intro ids
  induction ids with
  | nil => intro acc hmem; cases hmem
  | cons i rest ih =>
    intro acc hmem hacc
    rw [List.foldl_cons]
    by_cases hsame : i = rid
    · subst hsame
      apply extendFold_keeps_none
      rw [extendStep_eq_some_some hrec hacc, if_pos heq, lookupJs_eraseKey_self]
    · have hmem2 : rid ∈ rest := by
        rcases List.mem_cons.1 hmem with h1 | h2
        · exact absurd h1.symm hsame
        · exact h2
      exact ih _ hmem2 (by rw [extendStep_other hsame]; exact hacc)

/-- When the selected config of the rule differs from the recommended one,
the fold keeps the rule with its selected config. -/
theorem extendFold_keeps_different {recRules : List (String × JVal)} {rid : String}
    {rv cv : JVal} (hrec : lookupJs rid recRules = some rv)
    (heq : jsEqual rv cv = false) :
    ∀ (ids : List String) (acc : List (String × JVal)),
    lookupJs rid acc = some cv →
    lookupJs rid (ids.foldl (extendStep recRules) acc) = some cv := by
  intro ids
  induction ids with
  | nil => intro acc h; exact h
  | cons i rest ih =>
    intro acc hacc
    rw [List.foldl_cons]
    by_cases hsame : i = rid
    · subst hsame
      apply ih
      rw [extendStep_eq_some_some hrec hacc, if_neg (by simp [heq])]
      exact hacc
    · exact ih _ (by rw [extendStep_other hsame]; exact hacc)

/-- A successful lookup names a member entry. -/
theorem lookupJs_mem {β : Type} {rid : String} {v : β} :
    ∀ {m : List (String × β)}, lookupJs rid m = some v →
    ∃ kv ∈ m, kv.1 = rid ∧ kv.2 = v := by
  intro m
  induction m with
  | nil => intro h; cases h
  | cons e rest ih =>
    intro h
    by_cases hb : e.1 == rid
    · rw [show lookupJs rid (e :: rest) = some e.2 from by
        obtain ⟨k2, v2⟩ := e; exact lookupJs_cons_self hb] at h
      exact ⟨e, List.mem_cons_self e rest, eq_of_beq hb, Option.some_inj.1 h⟩
    · have hbf : (e.1 == rid) = false := by simpa using hb
      rw [show lookupJs rid (e :: rest) = lookupJs rid rest from by
        obtain ⟨k2, v2⟩ := e; exact lookupJs_cons_ne hbf] at h
      obtain ⟨kv, hkv, hk, hv⟩ := ih h
      exact ⟨kv, List.mem_cons_of_mem e hkv, hk, hv⟩

/-- C9: for every selected rules section and recommended rules section, and
every rule whose recommended severity is on (the number 2, bare or at the
head of a tuple): extendFromRecommended omits the rule from the emitted rules
exactly when the selected configuration is deep-equal to the recommended one,
keeps the rule with its selected configuration when the two differ, and
records in either case that the emitted configuration extends the
eslint:recommended baseline. -/
theorem extendFromRecommended_merges_into_baseline
    (configRules recRules : List (String × JVal)) (rid : String) (rv cv : JVal)
    (hrec : lookupJs rid recRules = some rv) (hon : severityIsError rv = true)
    (hsel : lookupJs rid configRules = some cv) :
    (extendFromRecommended configRules recRules).2 = "eslint:recommended"
    ∧ (jsEqual rv cv = true →
        lookupJs rid (extendFromRecommended configRules recRules).1 = none)
    ∧ (jsEqual rv cv = false →
        lookupJs rid (extendFromRecommended configRules recRules).1 = some cv) := by
  refine ⟨rfl, ?_, ?_⟩
  · intro heq
    have hmem : rid ∈ (recRules.filter (fun kv => severityIsError kv.2)).map
        (fun kv => kv.1) := by
      obtain ⟨kv, hkv, hk, hv⟩ := lookupJs_mem hrec
      rw [List.mem_map]
      refine ⟨kv, ?_, hk⟩
      rw [List.mem_filter]
      exact ⟨hkv, by rw [hv]; exact hon⟩
    exact extendFold_deletes_equal hrec heq _ configRules hmem hsel
  · intro heq
    exact extendFold_keeps_different hrec heq _ configRules hsel

/-- C9 witnessed at Scenario D of the spec: selected no-console at severity 2
equals the recommended entry, so the emitted rules omit no-console. -/
theorem extendFromRecommended_merges_into_baseline_witness :
    lookupJs "no-console"
      (extendFromRecommended [("no-console", JVal.num 2)]
        [("no-console", JVal.num 2)]).1 = none :=
  (extendFromRecommended_merges_into_baseline
    [("no-console", JVal.num 2)] [("no-console", JVal.num 2)]
    "no-console" (JVal.num 2) (JVal.num 2) rfl rfl rfl).2.1 rfl
